import Mathlib

/-!
Verification of the Akima interpolation engine (`src/akima_interpolation.py`).

The Python source is shallowly embedded over exact rationals (`ℚ`).  All machine
arithmetic in the source is IEEE floating point; the embedding uses exact
arithmetic, so a float ratio is non-finite precisely when its denominator is
zero (the `np.isfinite` test in `calculate_slopes` becomes a test for a zero
x-step).  Python exceptions become an explicit error type and `Except`.
Sorting by x (the source's `np.argsort` fancy-indexing of both arrays) is
modelled as the stable joint sort of the (x, y) pairs.
-/

namespace Akima

/-- Error taxonomy of the source.  The first four are the `ValueError`s raised
by the Python code (`少なくとも2個のデータ点が必要です`, `x_dataとy_dataの長さが
一致しません`, `この関数は4個のデータ点を必要とします`, `x座標が重複しています`);
`indexError` models the numpy `IndexError` raised when `y_data[sorted_indices]`
indexes past the end of `y_data`. -/
inductive AkimaError where
  | insufficientPoints
  | lengthMismatch
  | fixedArity
  | degenerateInput
  | indexError
deriving DecidableEq, Repr

/-- Secant slopes, embedding `calculate_slopes` (src lines 5-9):
`slopes = (y[1:] - y[:-1]) / (x[1:] - x[:-1])`, with non-finite entries
replaced by `0.0` via `np.where(np.isfinite(slopes), slopes, 0.0)`.
Over exact rationals with finite inputs the raw ratio is non-finite exactly
when the x-step is zero, so the `isfinite` replacement is the `dx = 0` test.
The function is total: it has no exception path. -/
def calculate_slopes (x y : List ℚ) : List ℚ :=
  (List.range (x.length - 1)).map (fun i =>
    let dx := x.getD (i+1) 0 - x.getD i 0
    let dy := y.getD (i+1) 0 - y.getD i 0
    if dx = 0 then 0 else dy / dx)

/-- Final value of `s[i]` in `calculate_spline_slopes` for `n ≥ 3` (src lines
25-41).  The Python code assigns `s[0]`, `s[1]`, the interior loop over
`range(2, n-2)`, then `s[n-2]` and `s[n-1]`; later assignments win, which is
reflected in the order of the branches below (the interior loop range
`2 ≤ i ≤ n-3` is disjoint from the other four indices once `n ≥ 3`). -/
def spline_slope_at (m : List ℚ) (n i : ℕ) : ℚ :=
  if i = n - 1 then m.getD (n-2) 0
  else if i = n - 2 then (m.getD (n-3) 0 + m.getD (n-2) 0) / 2
  else if i = 0 then m.getD 0 0
  else if i = 1 then (m.getD 0 0 + m.getD 1 0) / 2
  else
    let w1 := |m.getD (i+1) 0 - m.getD i 0|
    let w2 := |m.getD (i-1) 0 - m.getD (i-2) 0|
    if w1 + w2 = 0 then (m.getD (i-1) 0 + m.getD i 0) / 2
    else (w1 * m.getD (i-1) 0 + w2 * m.getD i 0) / (w1 + w2)

/-- Tangent (node-slope) vector, embedding `calculate_spline_slopes`
(src lines 12-43).  Raises for fewer than two points; `n = 2` short-circuits
to `[m0, m0]`. -/
def calculate_spline_slopes (x y : List ℚ) : Except AkimaError (List ℚ) :=
  let n := x.length
  if n < 2 then .error .insufficientPoints
  else
    let m := calculate_slopes x y
    if n = 2 then .ok [m.getD 0 0, m.getD 0 0]
    else .ok ((List.range n).map (spline_slope_at m n))

/-- Per-segment cubic coefficients, embedding `calculate_cubic_coefficients`
(src lines 46-64).  Re-checks `h = 0` defensively and raises the
degenerate-input error. -/
def calculate_cubic_coefficients (x y s : List ℚ) (i : ℕ) :
    Except AkimaError (ℚ × ℚ × ℚ × ℚ) :=
  let h := x.getD (i+1) 0 - x.getD i 0
  if h = 0 then .error .degenerateInput
  else
    let m_i := (y.getD (i+1) 0 - y.getD i 0) / h
    .ok (y.getD i 0, s.getD i 0,
         (3 * m_i - 2 * s.getD i 0 - s.getD (i+1) 0) / h,
         (s.getD i 0 + s.getD (i+1) 0 - 2 * m_i) / (h * h))

/-- Evaluation of the segment cubic exactly as the source writes it:
`a + b*dx + c*dx*dx + d*dx*dx*dx` (src line 187). -/
def cubic_eval (a b c d dx : ℚ) : ℚ := a + b * dx + c * dx * dx + d * dx * dx * dx

/-- First derivative of the segment cubic, used to state the Hermite
endpoint-derivative conditions of spec §4.3. -/
def cubic_deriv (b c d dx : ℚ) : ℚ := b + 2 * c * dx + 3 * d * dx * dx

/-- Comparison on (x, y) pairs by abscissa, the key of the joint sort. -/
def keyLe (a b : ℚ × ℚ) : Prop := a.1 ≤ b.1

instance : DecidableRel keyLe := fun a b => inferInstanceAs (Decidable (a.1 ≤ b.1))

instance : IsTotal (ℚ × ℚ) keyLe := ⟨fun a b => le_total a.1 b.1⟩

instance : IsTrans (ℚ × ℚ) keyLe := ⟨fun _ _ _ h h' => le_trans h h'⟩

/-- Joint stable sort of the samples by x, embedding
`sorted_indices = np.argsort(x_data); x_sorted = x_data[sorted_indices];
y_sorted = y_data[sorted_indices]` (src lines 160-162): applying the stable
argsort permutation to both arrays is the stable sort of the zipped pairs by
their first component. -/
def sortPairs (x y : List ℚ) : List (ℚ × ℚ) := List.insertionSort keyLe (x.zip y)

/-- The sorted x array. -/
def sortedX (x y : List ℚ) : List ℚ := (sortPairs x y).map Prod.fst

/-- The sorted y array. -/
def sortedY (x y : List ℚ) : List ℚ := (sortPairs x y).map Prod.snd

/-- Embedding of `np.searchsorted(x_sorted, v)` with the default `side='left'`:
for a sorted array it returns the number of elements strictly below `v`. -/
def searchsorted_left (x : List ℚ) (v : ℚ) : ℕ :=
  x.countP (fun t => decide (t < v))

/-- Segment location, embedding `idx = np.searchsorted(x_sorted, x_interp) - 1;
idx = max(0, min(idx, len(x_sorted) - 2))` (src lines 182-183).  Computed over
`ℤ` so that the `- 1` and the clamp behave exactly as in Python. -/
def locate_segment (x : List ℚ) (v : ℚ) : ℕ :=
  (max 0 (min ((searchsorted_left x v : ℤ) - 1) ((x.length : ℤ) - 2))).toNat

/-- Below-range branch of the entry points (src lines 164-171): linear
extrapolation from the two smallest samples, returning the boundary y when the
two boundary abscissae coincide, and falling back to `y_sorted[0]` for a
single-element array. -/
def extrap_low (xs ys : List ℚ) (q : ℚ) : Except AkimaError ℚ :=
  if 1 < xs.length then
    let dx := xs.getD 1 0 - xs.getD 0 0
    if dx = 0 then .ok (ys.getD 0 0)
    else .ok (ys.getD 0 0 + (ys.getD 1 0 - ys.getD 0 0) / dx * (q - xs.getD 0 0))
  else .ok (ys.getD 0 0)

/-- Above-range branch of the entry points (src lines 172-179), symmetric to
`extrap_low` using the two largest samples (`[-1]` and `[-2]` indexing). -/
def extrap_high (xs ys : List ℚ) (q : ℚ) : Except AkimaError ℚ :=
  if 1 < xs.length then
    let dx := xs.getD (xs.length - 1) 0 - xs.getD (xs.length - 2) 0
    if dx = 0 then .ok (ys.getD (ys.length - 1) 0)
    else .ok (ys.getD (ys.length - 1) 0 +
      (ys.getD (ys.length - 1) 0 - ys.getD (ys.length - 2) 0) / dx *
        (q - xs.getD (xs.length - 1) 0))
  else .ok (ys.getD (ys.length - 1) 0)

/-- In-range evaluation given an already computed tangent vector `s`
(src lines 182-189): locate the segment, derive its coefficients, evaluate the
cubic at `dx = x_interp - x_sorted[idx]`. -/
def interp_inrange (xs ys s : List ℚ) (q : ℚ) : Except AkimaError ℚ :=
  let idx := locate_segment xs q
  match calculate_cubic_coefficients xs ys s idx with
  | .error e => .error e
  | .ok (a, b, c, d) => .ok (cubic_eval a b c d (q - xs.getD idx 0))

/-- Body shared by `akima_interpolate_npoints` and `akima_interpolate_4points`
after sorting (src lines 164-189): extrapolation branches first, then the
tangent vector is computed and the in-range cubic evaluated. -/
def interp_body (xs ys : List ℚ) (q : ℚ) : Except AkimaError ℚ :=
  if q ≤ xs.getD 0 0 then extrap_low xs ys q
  else if xs.getD (xs.length - 1) 0 ≤ q then extrap_high xs ys q
  else
    match calculate_spline_slopes xs ys with
    | .error e => .error e
    | .ok s => interp_inrange xs ys s q

/-- Embedding of `akima_interpolate_npoints` (src lines 153-189). -/
def akima_interpolate_npoints (x y : List ℚ) (q : ℚ) : Except AkimaError ℚ :=
  if x.length ≠ y.length then .error .lengthMismatch
  else if x.length < 2 then .error .insufficientPoints
  else interp_body (sortedX x y) (sortedY x y) q

/-- Embedding of `akima_interpolate_4points` (src lines 67-100): the same body
behind a fixed-arity gate. -/
def akima_interpolate_4points (x y : List ℚ) (q : ℚ) : Except AkimaError ℚ :=
  if x.length ≠ 4 ∨ y.length ≠ 4 then .error .fixedArity
  else interp_body (sortedX x y) (sortedY x y) q

/-- One entry of `_akima_4points_cache` (src lines 115-119): the sorted arrays
and the tangent vector for a dataset key. -/
structure CacheEntry where
  x_sorted : List ℚ
  y_sorted : List ℚ
  s : List ℚ
deriving DecidableEq, Repr

/-- The process-wide dictionary `_akima_4points_cache`, modelled as an
association list keyed by the raw `(tuple(x_data), tuple(y_data))`. -/
abbrev Cache : Type := List ((List ℚ × List ℚ) × CacheEntry)

/-- Dictionary membership test and read (`data_key not in _akima_4points_cache`
/ `_akima_4points_cache[data_key]`, src lines 109 and 121). -/
def lookupCache : Cache → (List ℚ × List ℚ) → Option CacheEntry
  | [], _ => none
  | (k, e) :: rest, key => if k = key then some e else lookupCache rest key

/-- The cache-miss computation (src lines 110-119): sort both arrays by the
argsort permutation of `x_data` and compute the tangent vector.  Numpy raises
`IndexError` when `y_data` is shorter than `x_data` (an argsort index then
overruns `y_data`); when `y_data` is longer, its tail is silently ignored,
which the pair-zip reproduces.  `calculate_spline_slopes` raises for fewer
than two points. -/
def cache_entry_for (x y : List ℚ) : Except AkimaError CacheEntry :=
  if y.length < x.length then .error .indexError
  else
    match calculate_spline_slopes (sortedX x y) (sortedY x y) with
    | .error e => .error e
    | .ok s => .ok ⟨sortedX x y, sortedY x y, s⟩

/-- Per-query evaluation from a cache entry (src lines 126-150): identical to
`interp_body` except that the stored tangent vector is used instead of a fresh
`calculate_spline_slopes`. -/
def cached_body (e : CacheEntry) (q : ℚ) : Except AkimaError ℚ :=
  if q ≤ e.x_sorted.getD 0 0 then extrap_low e.x_sorted e.y_sorted q
  else if e.x_sorted.getD (e.x_sorted.length - 1) 0 ≤ q then
    extrap_high e.x_sorted e.y_sorted q
  else interp_inrange e.x_sorted e.y_sorted e.s q

/-- Embedding of `akima_interpolate_4points_with_cache` (src lines 106-150),
with the mutable global dictionary passed explicitly: the call returns the
result together with the possibly grown cache.  Note the source performs no
arity or length validation on this path. -/
def akima_interpolate_4points_with_cache (c : Cache) (x y : List ℚ) (q : ℚ) :
    Except AkimaError ℚ × Cache :=
  match lookupCache c (x, y) with
  | some e => (cached_body e q, c)
  | none =>
    match cache_entry_for x y with
    | .error err => (.error err, c)
    | .ok e => (cached_body e q, ((x, y), e) :: c)

/-! ### Generic helper lemmas -/

theorem getD_range_map (f : ℕ → ℚ) {n i : ℕ} (h : i < n) :
    ((List.range n).map f).getD i 0 = f i := by
  rw [List.getD_eq_getElem _ _ (by simpa using h)]
  simp

theorem length_calculate_slopes (x y : List ℚ) :
    (calculate_slopes x y).length = x.length - 1 := by
  simp [calculate_slopes]

/-! ### Final value of each tangent entry for `n ≥ 3` -/

theorem spline_slope_at_last (m : List ℚ) (n : ℕ) :
    spline_slope_at m n (n-1) = m.getD (n-2) 0 := by
  rw [spline_slope_at, if_pos rfl]

theorem spline_slope_at_penult (m : List ℚ) {n : ℕ} (h : 3 ≤ n) :
    spline_slope_at m n (n-2) = (m.getD (n-3) 0 + m.getD (n-2) 0) / 2 := by
  rw [spline_slope_at, if_neg (by omega), if_pos rfl]

theorem spline_slope_at_zero (m : List ℚ) {n : ℕ} (h : 3 ≤ n) :
    spline_slope_at m n 0 = m.getD 0 0 := by
  rw [spline_slope_at, if_neg (by omega), if_neg (by omega), if_pos rfl]

theorem spline_slope_at_one (m : List ℚ) {n : ℕ} (h : 4 ≤ n) :
    spline_slope_at m n 1 = (m.getD 0 0 + m.getD 1 0) / 2 := by
  rw [spline_slope_at, if_neg (by omega), if_neg (by omega), if_neg (by omega),
    if_pos rfl]

theorem spline_slope_at_interior (m : List ℚ) {n i : ℕ} (h2 : 2 ≤ i)
    (h3 : i ≤ n - 3) (hn : 5 ≤ n) :
    spline_slope_at m n i =
      (let w1 := |m.getD (i+1) 0 - m.getD i 0|
       let w2 := |m.getD (i-1) 0 - m.getD (i-2) 0|
       if w1 + w2 = 0 then (m.getD (i-1) 0 + m.getD i 0) / 2
       else (w1 * m.getD (i-1) 0 + w2 * m.getD i 0) / (w1 + w2)) := by
  rw [spline_slope_at, if_neg (by omega), if_neg (by omega), if_neg (by omega),
    if_neg (by omega)]

/-- The claimed shape of the tangent vector (spec §4.2 / C1), stated with the
secant vector `m`. -/
def SplineSlopesClaim (m : List ℚ) (n : ℕ) (s : List ℚ) : Prop :=
  m.length = n - 1 ∧
  s.length = n ∧
  s.getD 0 0 = m.getD 0 0 ∧
  s.getD (n-1) 0 = m.getD (n-2) 0 ∧
  (n = 2 → s.getD 1 0 = m.getD 0 0) ∧
  (3 ≤ n →
    s.getD 1 0 = (m.getD 0 0 + m.getD 1 0) / 2 ∧
    s.getD (n-2) 0 = (m.getD (n-3) 0 + m.getD (n-2) 0) / 2) ∧
  (∀ i, 2 ≤ i → i ≤ n - 3 →
    s.getD i 0 =
      (let w1 := |m.getD (i+1) 0 - m.getD i 0|
       let w2 := |m.getD (i-1) 0 - m.getD (i-2) 0|
       if w1 + w2 = 0 then (m.getD (i-1) 0 + m.getD i 0) / 2
       else (w1 * m.getD (i-1) 0 + w2 * m.getD i 0) / (w1 + w2)))

/-- C1: for a sorted dataset with `n ≥ 2` samples, `calculate_spline_slopes`
returns the tangent vector with clamped boundaries, averaged near-boundary
nodes, and Akima's weighted rule at interior nodes `2 ≤ i ≤ n-3`. -/
theorem calculate_spline_slopes_spec (x y : List ℚ) (n : ℕ) (m s : List ℚ)
    (hn : n = x.length) (hm : m = calculate_slopes x y)
    (hlen : x.length = y.length) (h2 : 2 ≤ n)
    (hsort : x.Pairwise (· ≤ ·))
    (hs : calculate_spline_slopes x y = .ok s) :
    SplineSlopesClaim m n s := by
  subst hn hm
  rw [calculate_spline_slopes] at hs
  rw [if_neg (by omega)] at hs
  by_cases hx2 : x.length = 2
  · rw [if_pos hx2] at hs
    simp only [Except.ok.injEq] at hs
    subst hs
    refine ⟨by simp [length_calculate_slopes, hx2], by simp [hx2], rfl, ?_, ?_, ?_, ?_⟩
    · rw [hx2]; rfl
    · intro _; rfl
    · intro h3; omega
    · intro i hi hi3; omega
  · rw [if_neg hx2] at hs
    simp only [Except.ok.injEq] at hs
    subst hs
    have h3 : 3 ≤ x.length := by omega
    refine ⟨by simp [length_calculate_slopes], by simp, ?_, ?_, ?_, ?_, ?_⟩
    · rw [getD_range_map _ (by omega), spline_slope_at_zero _ h3]
    · rw [getD_range_map _ (by omega), spline_slope_at_last]
    · intro h; omega
    · intro _
      constructor
      · by_cases h4 : 4 ≤ x.length
        · rw [getD_range_map _ (by omega), spline_slope_at_one _ h4]
        · have hx3 : x.length = 3 := by omega
          rw [getD_range_map _ (by omega)]
          have h1 : (1 : ℕ) = x.length - 2 := by omega
          rw [h1, spline_slope_at_penult _ h3]
          have e0 : x.length - 3 = 0 := by omega
          have e1 : x.length - 2 = 1 := by omega
          rw [e0, e1]
      · rw [getD_range_map _ (by omega), spline_slope_at_penult _ h3]
    · intro i hi hi3
      have h5 : 5 ≤ x.length := by omega
      rw [getD_range_map _ (by omega), spline_slope_at_interior _ hi hi3 h5]

/-- C1 witness: the theorem applied to the dataset
`x = [0,1,2,3,4,5]`, `y = [0,1,4,9,16,25]`, whose secants are `[1,3,5,7,9]`
and whose tangent vector is `[1,2,4,6,8,9]`. -/
theorem calculate_spline_slopes_spec_witness :
    SplineSlopesClaim [1,3,5,7,9] 6 [1,2,4,6,8,9] :=
  calculate_spline_slopes_spec [0,1,2,3,4,5] [0,1,4,9,16,25] 6 [1,3,5,7,9]
    [1,2,4,6,8,9] rfl
    (by norm_num [calculate_slopes, List.range_succ])
    rfl (by norm_num)
    (by decide)
    (by norm_num [calculate_spline_slopes, calculate_slopes, List.range_succ,
      spline_slope_at])

/-- The claimed shape of the secant vector (spec §3 / §4.1 / C8). -/
def SlopesClaim (x y m : List ℚ) : Prop :=
  m.length = x.length - 1 ∧
  ∀ i, i < x.length - 1 →
    m.getD i 0 =
      if x.getD (i+1) 0 - x.getD i 0 = 0 then 0
      else (y.getD (i+1) 0 - y.getD i 0) / (x.getD (i+1) 0 - x.getD i 0)

/-- C8: each secant slope is `(y[i+1]-y[i])/(x[i+1]-x[i])`, normalized to `0`
exactly when the raw float ratio would be non-finite, which over exact
arithmetic on finite data happens precisely when the x-step is zero.  The
function is total (`List ℚ`, not `Except`): it has no exception path. -/
theorem calculate_slopes_spec (x y : List ℚ) :
    SlopesClaim x y (calculate_slopes x y) := by
  refine ⟨length_calculate_slopes x y, ?_⟩
  intro i hi
  rw [calculate_slopes, getD_range_map _ hi]

/-- C8 witness: the dataset `x = [0,0,1]`, `y = [1,2,4]` has a zero-width
first step, so `m = [0, 2]`: the first raw ratio is non-finite and is floored
to `0`, the second is `(4-2)/(1-0) = 2`. -/
theorem calculate_slopes_spec_witness :
    SlopesClaim [0,0,1] [1,2,4] (calculate_slopes [0,0,1] [1,2,4]) ∧
    calculate_slopes [0,0,1] [1,2,4] = [0, 2] :=
  ⟨calculate_slopes_spec [0,0,1] [1,2,4],
   by norm_num [calculate_slopes, List.range_succ]⟩

/-! ### The joint sort is the identity on sorted input -/

theorem pairwise_keyLe_zip (x y : List ℚ) (hx : x.Pairwise (· ≤ ·)) :
    (x.zip y).Pairwise keyLe := by
  rw [List.pairwise_iff_getElem] at hx ⊢
  intro i j hi hj hij
  have hli : i < x.length := by
    have := (List.length_zip x y) ▸ hi
    omega
  have hlj : j < x.length := by
    have := (List.length_zip x y) ▸ hj
    omega
  simpa [List.getElem_zip, keyLe] using hx i j hli hlj hij

theorem sortPairs_of_sorted {x y : List ℚ} (hx : x.Pairwise (· ≤ ·)) :
    sortPairs x y = x.zip y :=
  List.Sorted.insertionSort_eq (pairwise_keyLe_zip x y hx)

theorem sortedX_of_sorted {x y : List ℚ} (hx : x.Pairwise (· ≤ ·))
    (h : x.length ≤ y.length) : sortedX x y = x := by
  rw [sortedX, sortPairs_of_sorted hx, List.map_fst_zip _ _ h]

theorem sortedY_of_sorted {x y : List ℚ} (hx : x.Pairwise (· ≤ ·))
    (h : y.length ≤ x.length) : sortedY x y = y := by
  rw [sortedY, sortPairs_of_sorted hx, List.map_snd_zip _ _ h]

/-- C4 counterexample: for the dataset `x = [1,1]`, `y = [5,7]` the claim says
every query raises the degenerate-input error, but the code answers every
query: the coincident boundary pair is caught by the `dx == 0` extrapolation
guard, which returns the boundary y instead of raising. -/
theorem duplicate_x_not_rejected :
    akima_interpolate_npoints [1,1] [5,7] 0 = .ok 5 ∧
    akima_interpolate_npoints [1,1] [5,7] 1 = .ok 5 ∧
    akima_interpolate_npoints [1,1] [5,7] 2 = .ok 7 := by
  refine ⟨?_, ?_, ?_⟩ <;>
    norm_num [akima_interpolate_npoints, interp_body, extrap_low, extrap_high,
      sortedX, sortedY, sortPairs, keyLe]

/-- C4 amended: for `x = [1,1]`, `y = [5,7]` every query is answered rather
than rejected — queries `q ≤ 1` return `5` (the low boundary y) and queries
`q > 1` return `7` (the high boundary y).  A dataset with duplicate x values
is thus tolerated, not rejected. -/
theorem duplicate_x_tolerated (q : ℚ) :
    akima_interpolate_npoints [1,1] [5,7] q = .ok (if q ≤ 1 then 5 else 7) := by
  have hx : sortedX [1,1] [5,7] = [1,1] := by
    norm_num [sortedX, sortPairs, keyLe]
  have hy : sortedY [1,1] [5,7] = [5,7] := by
    norm_num [sortedY, sortPairs, keyLe]
  by_cases hq : q ≤ 1
  · simp [akima_interpolate_npoints, interp_body, extrap_low, hx, hy, hq]
  · have h1 : (1:ℚ) ≤ q := le_of_not_le hq
    simp [akima_interpolate_npoints, interp_body, extrap_low, extrap_high,
      hx, hy, hq, h1]

/-- C4 witness: the amended behavior at the concrete query `0`. -/
theorem duplicate_x_tolerated_witness :
    akima_interpolate_npoints [1,1] [5,7] 0 = .ok (if (0:ℚ) ≤ 1 then 5 else 7) :=
  duplicate_x_tolerated 0

/-- The claimed extrapolation behavior of C3, for a dataset already sorted by
x: strictly-below-range queries get the straight line through the two lowest
samples (or the boundary y when those coincide in x), strictly-above-range
queries the straight line through the two highest. -/
def ExtrapolationClaim (x y : List ℚ) (q : ℚ) : Prop :=
  (q < x.getD 0 0 →
    akima_interpolate_npoints x y q = .ok (
      if x.getD 1 0 = x.getD 0 0 then y.getD 0 0
      else y.getD 0 0 + (y.getD 1 0 - y.getD 0 0) / (x.getD 1 0 - x.getD 0 0) *
        (q - x.getD 0 0))) ∧
  (x.getD (x.length - 1) 0 < q →
    akima_interpolate_npoints x y q = .ok (
      if x.getD (x.length - 1) 0 = x.getD (x.length - 2) 0 then
        y.getD (y.length - 1) 0
      else y.getD (y.length - 1) 0 +
        (y.getD (y.length - 1) 0 - y.getD (y.length - 2) 0) /
          (x.getD (x.length - 1) 0 - x.getD (x.length - 2) 0) *
            (q - x.getD (x.length - 1) 0)))

/-- C3: out-of-range queries are answered by exact linear extrapolation from
the two nearest boundary samples, with coincident boundary abscissae returning
the boundary y unmodified instead of dividing by zero. -/
theorem extrapolation_linear (x y : List ℚ) (q : ℚ)
    (hlen : x.length = y.length) (h2 : 2 ≤ x.length)
    (hsort : x.Pairwise (· ≤ ·)) :
    ExtrapolationClaim x y q := by
  have hx : sortedX x y = x := sortedX_of_sorted hsort (by omega)
  have hy : sortedY x y = y := sortedY_of_sorted hsort (by omega)
  have hbody : akima_interpolate_npoints x y q = interp_body x y q := by
    rw [akima_interpolate_npoints, if_neg (by omega), if_neg (by omega), hx, hy]
  have h0n : x.getD 0 0 ≤ x.getD (x.length - 1) 0 := by
    rcases Nat.lt_or_ge 1 x.length with h | h
    · rw [List.getD_eq_getElem _ _ (by omega), List.getD_eq_getElem _ _ (by omega)]
      exact (List.pairwise_iff_getElem.mp hsort) 0 (x.length - 1)
        (by omega) (by omega) (by omega)
    · omega
  constructor
  · intro hq
    rw [hbody, interp_body, if_pos (le_of_lt hq), extrap_low, if_pos (by omega)]
    by_cases hdx : x.getD 1 0 = x.getD 0 0
    · rw [if_pos (by rw [hdx, sub_self]), if_pos hdx]
    · rw [if_neg (fun h => hdx (by linarith [sub_eq_zero.mp h])), if_neg hdx]
  · intro hq
    have hq0 : ¬ (q ≤ x.getD 0 0) := by
      intro h
      exact absurd hq (not_lt_of_le (le_trans h h0n))
    rw [hbody, interp_body, if_neg hq0, if_pos (le_of_lt hq), extrap_high,
      if_pos (by omega)]
    have hylen : y.length = x.length := hlen.symm
    by_cases hdx : x.getD (x.length - 1) 0 = x.getD (x.length - 2) 0
    · rw [if_pos (by rw [hdx, sub_self]), if_pos hdx]
    · rw [if_neg (fun h => hdx (by linarith [sub_eq_zero.mp h])), if_neg hdx]

/-- C3 witness: for `x = [0,1]`, `y = [5,7]` the query `-1` lies strictly
below the range and gets the line through `(0,5)` and `(1,7)`, namely `3`;
the query `2` lies strictly above and gets `9`. -/
theorem extrapolation_linear_witness :
    ExtrapolationClaim [0,1] [5,7] (-1) ∧ ExtrapolationClaim [0,1] [5,7] 2 :=
  ⟨extrapolation_linear [0,1] [5,7] (-1) rfl (by norm_num) (by decide),
   extrapolation_linear [0,1] [5,7] 2 rfl (by norm_num) (by decide)⟩

/-! ### Segment location -/

theorem getD_lt_iff_lt_countP (x : List ℚ) (q : ℚ) (hx : x.Pairwise (· < ·)) :
    ∀ j, j < x.length → (x.getD j 0 < q ↔ j < searchsorted_left x q) := by
  induction x with
  | nil => intro j hj; simp at hj
  | cons a l ih =>
    rw [List.pairwise_cons] at hx
    obtain ⟨ha, hl⟩ := hx
    intro j hj
    by_cases haq : a < q
    · cases j with
      | zero =>
        simp only [List.getD_cons_zero, searchsorted_left]
        rw [List.countP_cons_of_pos _ _ (by simpa using haq)]
        exact iff_of_true haq (by omega)
      | succ j =>
        simp only [List.getD_cons_succ, searchsorted_left]
        rw [List.countP_cons_of_pos _ _ (by simpa using haq)]
        have hthis := ih hl j (by simpa using hj)
        rw [searchsorted_left] at hthis
        rw [hthis]
        omega
    · have hcount : searchsorted_left (a :: l) q = 0 := by
        rw [searchsorted_left, List.countP_eq_zero]
        intro b hb
        rcases List.mem_cons.mp hb with rfl | hbl
        · simpa using haq
        · have hab : a < b := ha b hbl
          simp only [decide_eq_true_eq]
          intro hbq
          exact haq (lt_trans hab hbq)
      have hge : q ≤ (a :: l).getD j 0 := by
        cases j with
        | zero => simpa using le_of_not_lt haq
        | succ j =>
          simp only [List.getD_cons_succ]
          have hjl : j < l.length := by simpa using hj
          rw [List.getD_eq_getElem _ _ hjl]
          have hmem : l[j] ∈ l := List.getElem_mem hjl
          have hab : a < l[j] := ha _ hmem
          exact le_trans (le_of_not_lt haq) (le_of_lt hab)
      rw [hcount]
      exact iff_of_false (not_lt_of_le hge) (by omega)

/-- C5 counterexample: for the strictly sorted `x = [0,1,2,3]` and the query
`q = 1` (an exact interior breakpoint), the code returns segment index `0`,
which violates the claimed invariant `x[i] ≤ q < x[i+1]`; the unique index
satisfying that invariant is `1`, not `0`. -/
theorem locate_segment_breakpoint_cex :
    locate_segment [0,1,2,3] 1 = 0 ∧
    ¬ (([0,1,2,3] : List ℚ).getD 0 0 ≤ 1 ∧ (1:ℚ) < ([0,1,2,3] : List ℚ).getD (0+1) 0) ∧
    (([0,1,2,3] : List ℚ).getD 1 0 ≤ 1 ∧ (1:ℚ) < ([0,1,2,3] : List ℚ).getD (1+1) 0) := by
  refine ⟨?_, by norm_num, by norm_num⟩
  norm_num [locate_segment, searchsorted_left, List.countP, List.countP.go]

/-- The amended segment-location invariant of C5: the returned index is
clamped into `[0, n-2]` and is the unique index with
`x[i] < q ≤ x[i+1]` — an exact interior breakpoint falls into the segment to
its left, not its right. -/
def SegmentLocationClaim (x : List ℚ) (q : ℚ) : Prop :=
  locate_segment x q ≤ x.length - 2 ∧
  x.getD (locate_segment x q) 0 < q ∧
  q ≤ x.getD (locate_segment x q + 1) 0 ∧
  ∀ j, j ≤ x.length - 2 → x.getD j 0 < q → q ≤ x.getD (j+1) 0 →
    j = locate_segment x q

/-- C5 amended: for strictly sorted `x` and `x[0] < q < x[n-1]`, the
segment-location step returns the unique index `i`, clamped into `[0, n-2]`,
such that `x[i] < q ≤ x[i+1]`. -/
theorem locate_segment_spec (x : List ℚ) (q : ℚ)
    (hx : x.Pairwise (· < ·)) (h2 : 2 ≤ x.length)
    (hlo : x.getD 0 0 < q) (hhi : q < x.getD (x.length - 1) 0) :
    SegmentLocationClaim x q := by
  have hiff := getD_lt_iff_lt_countP x q hx
  have hss1 : 1 ≤ searchsorted_left x q := by
    have := (hiff 0 (by omega)).mp hlo
    omega
  have hssn : searchsorted_left x q ≤ x.length - 1 := by
    by_contra hcon
    have := (hiff (x.length - 1) (by omega)).mpr (by omega)
    exact absurd hhi (not_lt_of_lt this)
  have hloc : locate_segment x q = searchsorted_left x q - 1 := by
    rw [locate_segment]
    omega
  refine ⟨by omega, ?_, ?_, ?_⟩
  · rw [hloc]
    exact (hiff _ (by omega)).mpr (by omega)
  · rw [hloc]
    have he : searchsorted_left x q - 1 + 1 = searchsorted_left x q := by omega
    rw [he]
    exact le_of_not_lt (fun h => by
      have := (hiff _ (by omega)).mp h
      omega)
  · intro j hj hjlo hjhi
    have hlt : j < searchsorted_left x q := (hiff j (by omega)).mp hjlo
    have hge : searchsorted_left x q ≤ j + 1 := by
      by_contra hcon
      have := (hiff (j+1) (by omega)).mpr (by omega)
      exact absurd hjhi (not_le_of_lt this)
    omega

/-- C5 witness: for `x = [0,1,2,3]` and the non-breakpoint query `q = 3/2`
the amended invariant holds with index `1`. -/
theorem locate_segment_spec_witness : SegmentLocationClaim [0,1,2,3] (3/2) :=
  locate_segment_spec [0,1,2,3] (3/2) (by decide) (by norm_num)
    (by norm_num) (by norm_num)

/-! ### Cache -/

theorem length_sortPairs (x y : List ℚ) :
    (sortPairs x y).length = min x.length y.length := by
  rw [sortPairs]
  rw [List.length_insertionSort]
  exact List.length_zip x y

theorem length_sortedX (x y : List ℚ) :
    (sortedX x y).length = min x.length y.length := by
  rw [sortedX, List.length_map]
  exact length_sortPairs x y

theorem length_sortedY (x y : List ℚ) :
    (sortedY x y).length = min x.length y.length := by
  rw [sortedY, List.length_map]
  exact length_sortPairs x y

theorem calculate_spline_slopes_isOk {x y : List ℚ} (h : 2 ≤ x.length) :
    ∃ s, calculate_spline_slopes x y = .ok s := by
  simp only [calculate_spline_slopes, if_neg (by omega : ¬ x.length < 2)]
  split
  · exact ⟨_, rfl⟩
  · exact ⟨_, rfl⟩

theorem cached_body_eq_interp_body {xs ys s : List ℚ} (q : ℚ)
    (h : calculate_spline_slopes xs ys = .ok s) :
    cached_body ⟨xs, ys, s⟩ q = interp_body xs ys q := by
  rw [cached_body, interp_body, h]

theorem zip_take_right (x y : List ℚ) : x.zip y = x.zip (y.take x.length) := by
  induction x generalizing y with
  | nil => simp
  | cons a l ih =>
    cases y with
    | nil => simp
    | cons b m => simpa using ih m

/-- Well-formedness of the cache: every stored entry is exactly what a fresh
computation on its key would produce (the memoization invariant of spec
§4.6). -/
def CacheWF (c : Cache) : Prop :=
  ∀ p ∈ c, cache_entry_for p.1.1 p.1.2 = .ok p.2

theorem lookupCache_wf {c : Cache} {k : List ℚ × List ℚ} {e : CacheEntry}
    (hwf : CacheWF c) (h : lookupCache c k = some e) :
    cache_entry_for k.1 k.2 = .ok e := by
  induction c with
  | nil => simp [lookupCache] at h
  | cons p rest ih =>
    obtain ⟨k', e'⟩ := p
    rw [lookupCache] at h
    by_cases hk : k' = k
    · rw [if_pos hk] at h
      obtain rfl := Option.some.injEq _ _ ▸ h
      have := hwf (k', e') (List.mem_cons_self _ _)
      simpa [hk] using this
    · rw [if_neg hk] at h
      exact ih (fun p hp => hwf p (List.mem_cons_of_mem _ hp)) h

theorem cache_entry_for_spec {x y : List ℚ} {e : CacheEntry}
    (h : cache_entry_for x y = .ok e) :
    e.x_sorted = sortedX x y ∧ e.y_sorted = sortedY x y ∧
    calculate_spline_slopes (sortedX x y) (sortedY x y) = .ok e.s := by
  rw [cache_entry_for] at h
  by_cases hlen : y.length < x.length
  · rw [if_pos hlen] at h
    exact absurd h (by simp)
  · rw [if_neg hlen] at h
    rcases hok : calculate_spline_slopes (sortedX x y) (sortedY x y) with err | s
    · rw [hok] at h
      exact absurd h (by simp)
    · rw [hok] at h
      simp only [Except.ok.injEq] at h
      subst h
      exact ⟨rfl, rfl, by simpa using hok⟩

/-- C6 counterexample: for the three-sample dataset `x = [0,1,2]`,
`y = [0,5,4]` and the query `1/2`, the cached entry point returns the value
`23/8` while the uncached four-point computation on the same dataset fails
with the fixed-arity error, because only the uncached path validates the
sample count. -/
theorem cache_not_transparent_cex :
    (akima_interpolate_4points_with_cache [] [0,1,2] [0,5,4] (1/2)).1 =
      .ok (23/8) ∧
    akima_interpolate_4points [0,1,2] [0,5,4] (1/2) = .error .fixedArity := by
  constructor
  · norm_num [akima_interpolate_4points_with_cache, lookupCache, cache_entry_for,
      cached_body, interp_inrange, calculate_spline_slopes, calculate_slopes,
      locate_segment, searchsorted_left, calculate_cubic_coefficients, cubic_eval,
      extrap_low, extrap_high, sortedX, sortedY, sortPairs, keyLe, List.range_succ,
      spline_slope_at, List.countP, List.countP.go]
  · norm_num [akima_interpolate_4points]

/-- The amended cache-transparency claim of C6, for a well-formed cache and a
dataset of the four-point arity that the uncached path accepts: the cached
call returns the identical result, preserves the memoization invariant, and
the entry stored for the dataset holds exactly the tangent vector a fresh
`calculate_spline_slopes` on the sorted arrays produces. -/
def CacheTransparencyClaim (c : Cache) (x y : List ℚ) (q : ℚ) : Prop :=
  (akima_interpolate_4points_with_cache c x y q).1 =
    akima_interpolate_4points x y q ∧
  CacheWF (akima_interpolate_4points_with_cache c x y q).2 ∧
  ∀ e, lookupCache (akima_interpolate_4points_with_cache c x y q).2 (x, y) =
      some e →
    calculate_spline_slopes e.x_sorted e.y_sorted = .ok e.s

/-- C6 amended: on every dataset the uncached four-point entry point accepts
(exactly four samples each), the cached entry point is a pure memoization:
bit-identical results, a preserved cache invariant, and a cached tangent
vector identical to a fresh computation.  (On datasets of any other arity the
two entry points differ, as the counterexample shows: the cached path skips
the arity check.) -/
theorem cache_transparency (c : Cache) (x y : List ℚ) (q : ℚ)
    (hwf : CacheWF c) (hx : x.length = 4) (hy : y.length = 4) :
    CacheTransparencyClaim c x y q := by
  have hxs2 : 2 ≤ (sortedX x y).length := by
    rw [length_sortedX, hx, hy]
    omega
  obtain ⟨s, hs⟩ := @calculate_spline_slopes_isOk (sortedX x y)
    (sortedY x y) hxs2
  have hentry : cache_entry_for x y = .ok ⟨sortedX x y, sortedY x y, s⟩ := by
    rw [cache_entry_for, if_neg (by omega), hs]
  have h4 : akima_interpolate_4points x y q = interp_body (sortedX x y)
      (sortedY x y) q := by
    rw [akima_interpolate_4points, if_neg (by omega)]
  rcases hlook : lookupCache c (x, y) with _ | e
  · -- cache miss: a fresh entry is computed and stored
    have hres : akima_interpolate_4points_with_cache c x y q =
        (cached_body ⟨sortedX x y, sortedY x y, s⟩ q,
          ((x, y), ⟨sortedX x y, sortedY x y, s⟩) :: c) := by
      rw [akima_interpolate_4points_with_cache, hlook, hentry]
    refine ⟨?_, ?_, ?_⟩
    · rw [hres, h4]
      exact cached_body_eq_interp_body q hs
    · rw [hres]
      intro p hp
      rcases List.mem_cons.mp hp with rfl | hrest
      · exact hentry
      · exact hwf p hrest
    · intro e he
      rw [hres] at he
      simp [lookupCache] at he
      subst he
      simpa using hs
  · -- cache hit: the stored entry is used
    have hstored := lookupCache_wf hwf hlook
    have hee : e = ⟨sortedX x y, sortedY x y, s⟩ := by
      have := hentry ▸ hstored
      simpa using this.symm
    have hres : akima_interpolate_4points_with_cache c x y q =
        (cached_body e q, c) := by
      rw [akima_interpolate_4points_with_cache, hlook]
    refine ⟨?_, ?_, ?_⟩
    · rw [hres, h4, hee]
      exact cached_body_eq_interp_body q hs
    · rw [hres]
      exact hwf
    · intro e' he'
      rw [hres] at he'
      have hstored' := lookupCache_wf hwf he'
      obtain ⟨hx', hy', hsl⟩ := cache_entry_for_spec hstored'
      rw [hx', hy', hsl]

/-- C6 witness: the theorem applied to the empty cache and the spec's sample
four-point dataset `x = [0,1,2,3]`, `y = [0,1,4,9]` at query `3/2`. -/
theorem cache_transparency_witness :
    CacheTransparencyClaim [] [0,1,2,3] [0,1,4,9] (3/2) :=
  cache_transparency [] [0,1,2,3] [0,1,4,9] (3/2)
    (by intro p hp; simp at hp) rfl rfl

/-! ### Validation contract of the entry points -/

theorem sortPairs_take (x y : List ℚ) :
    sortPairs x (y.take x.length) = sortPairs x y := by
  rw [sortPairs, sortPairs, ← zip_take_right]

/-- C7 counterexample: the cached entry point performs no length validation.
With `x = [0,1]` and the longer `y = [5,7,9]` the N-point entry point fails
with the length-mismatch error, but the cached entry point silently ignores
the extra y value and returns `6`. -/
theorem cached_skips_validation_cex :
    akima_interpolate_npoints [0,1] [5,7,9] (1/2) = .error .lengthMismatch ∧
    (akima_interpolate_4points_with_cache [] [0,1] [5,7,9] (1/2)).1 = .ok 6 := by
  constructor
  · norm_num [akima_interpolate_npoints]
  · norm_num [akima_interpolate_4points_with_cache, lookupCache, cache_entry_for,
      cached_body, interp_inrange, calculate_spline_slopes, calculate_slopes,
      locate_segment, searchsorted_left, calculate_cubic_coefficients, cubic_eval,
      extrap_low, extrap_high, sortedX, sortedY, sortPairs, keyLe, List.range_succ,
      spline_slope_at, List.countP, List.countP.go]

/-- The amended validation claim of C7: the N-point entry point validates as
stated, while the cached entry point enforces no such contract — when
`y` is at least as long as `x` it never reports a length mismatch, computing
instead the answer for `y` truncated to `x`'s length. -/
def ValidationClaim : Prop :=
  (∀ (x y : List ℚ) (q : ℚ), x.length ≠ y.length →
    akima_interpolate_npoints x y q = .error .lengthMismatch) ∧
  (∀ (x y : List ℚ) (q : ℚ), x.length = y.length → x.length < 2 →
    akima_interpolate_npoints x y q = .error .insufficientPoints) ∧
  (∀ (x y : List ℚ) (q : ℚ), 2 ≤ x.length → x.length ≤ y.length →
    (akima_interpolate_4points_with_cache [] x y q).1 =
      akima_interpolate_npoints x (y.take x.length) q)

/-- C7 amended: `akima_interpolate_npoints` fails with the length-mismatch
error whenever `len(x) ≠ len(y)` and with the insufficient-points error
whenever fewer than two samples are supplied, before computing anything; the
cached entry point does not enforce that contract: on a fresh cache it
computes the N-point answer for `y` truncated to `x`'s length whenever
`len(y) ≥ len(x) ≥ 2`, instead of failing. -/
theorem validation_contract : ValidationClaim := by
  refine ⟨?_, ?_, ?_⟩
  · intro x y q h
    rw [akima_interpolate_npoints, if_pos h]
  · intro x y q hlen h2
    rw [akima_interpolate_npoints, if_neg (by omega), if_pos h2]
  · intro x y q h2 hxy
    have htake : (y.take x.length).length = x.length := by
      rw [List.length_take]
      omega
    have hxs2 : 2 ≤ (sortedX x y).length := by
      rw [length_sortedX]
      omega
    obtain ⟨s, hs⟩ := @calculate_spline_slopes_isOk (sortedX x y)
      (sortedY x y) hxs2
    have hlhs : akima_interpolate_4points_with_cache [] x y q =
        (cached_body ⟨sortedX x y, sortedY x y, s⟩ q,
          ((x, y), ⟨sortedX x y, sortedY x y, s⟩) :: []) := by
      rw [akima_interpolate_4points_with_cache]
      rw [show lookupCache [] (x, y) = none from rfl]
      rw [cache_entry_for, if_neg (by omega), hs]
    have hXeq : sortedX x (y.take x.length) = sortedX x y := by
      rw [sortedX, sortedX, sortPairs_take]
    have hYeq : sortedY x (y.take x.length) = sortedY x y := by
      rw [sortedY, sortedY, sortPairs_take]
    rw [hlhs, akima_interpolate_npoints, if_neg (by omega), if_neg (by omega),
      hXeq, hYeq]
    exact cached_body_eq_interp_body q hs

/-- C7 witness: the theorem instantiated at the spec's concrete mismatch
scenario `x = [0,1,2]`, `y = [0,1]`, at an undersized dataset, and at the
truncation example `x = [0,1]`, `y = [5,7,9]`. -/
theorem validation_contract_witness :
    akima_interpolate_npoints [0,1,2] [0,1] 0 = .error .lengthMismatch ∧
    akima_interpolate_npoints [7] [9] 0 = .error .insufficientPoints ∧
    (akima_interpolate_4points_with_cache [] [0,1] [5,7,9] (1/2)).1 =
      akima_interpolate_npoints [0,1] ([5,7,9].take 2) (1/2) :=
  ⟨validation_contract.1 [0,1,2] [0,1] 0 (by norm_num),
   validation_contract.2.1 [7] [9] 0 rfl (by norm_num),
   validation_contract.2.2 [0,1] [5,7,9] (1/2) (by norm_num) (by norm_num)⟩

/-! ### Order independence of the input pairs -/

/-- Strict comparison on pairs by abscissa. -/
def keyLt (a b : ℚ × ℚ) : Prop := a.1 < b.1

theorem sortPairs_strictSorted {x y : List ℚ}
    (hlen : x.length ≤ y.length) (hnodup : x.Nodup) :
    (sortPairs x y).Pairwise keyLt := by
  have hle : (sortPairs x y).Pairwise keyLe :=
    List.sorted_insertionSort keyLe (x.zip y)
  have hfst : ((sortPairs x y).map Prod.fst).Nodup := by
    have hperm : ((sortPairs x y).map Prod.fst).Perm ((x.zip y).map Prod.fst) :=
      (List.perm_insertionSort keyLe (x.zip y)).map Prod.fst
    have hzip : (x.zip y).map Prod.fst = x := List.map_fst_zip x y hlen
    rw [hperm.nodup_iff, hzip]
    exact hnodup
  have hne : (sortPairs x y).Pairwise (fun a b => a.1 ≠ b.1) :=
    List.pairwise_map.mp hfst
  exact (hle.and hne).imp (fun h => lt_of_le_of_ne h.1 h.2)

theorem sortPairs_perm_eq {x y x' y' : List ℚ}
    (hlen : x.length = y.length) (hlen' : x'.length = y'.length)
    (hperm : (x'.zip y').Perm (x.zip y)) (hnodup : x.Nodup) :
    sortPairs x' y' = sortPairs x y := by
  haveI : IsAntisymm (ℚ × ℚ) keyLt :=
    ⟨fun a b h h' => absurd h' (lt_asymm h)⟩
  have hxlen : x'.length = x.length := by
    have h1 : (x'.zip y').length = (x.zip y).length := hperm.length_eq
    rw [List.length_zip, List.length_zip] at h1
    omega
  have hnodup' : x'.Nodup := by
    have hmapperm : ((x'.zip y').map Prod.fst).Perm ((x.zip y).map Prod.fst) :=
      hperm.map Prod.fst
    rw [List.map_fst_zip x' y' (by omega), List.map_fst_zip x y (by omega)]
      at hmapperm
    rw [hmapperm.nodup_iff]
    exact hnodup
  have hp : (sortPairs x' y').Perm (sortPairs x y) :=
    ((List.perm_insertionSort keyLe (x'.zip y')).trans hperm).trans
      (List.perm_insertionSort keyLe (x.zip y)).symm
  exact List.eq_of_perm_of_sorted hp
    (sortPairs_strictSorted (by omega) hnodup')
    (sortPairs_strictSorted (by omega) hnodup)

/-- The order-independence claim of C9: interpolation commutes with any
permutation of the input pairs. -/
def OrderIndependenceClaim (x y x' y' : List ℚ) : Prop :=
  ∀ q, akima_interpolate_npoints x' y' q = akima_interpolate_npoints x y q

/-- C9: for a dataset with pairwise-distinct x values, permuting the (x, y)
pairs leaves every interpolated value identical, because both inputs are
jointly sorted by x before any computation. -/
theorem order_independence (x y x' y' : List ℚ)
    (hlen : x.length = y.length) (hlen' : x'.length = y'.length)
    (hperm : (x'.zip y').Perm (x.zip y)) (hnodup : x.Nodup) :
    OrderIndependenceClaim x y x' y' := by
  intro q
  have hxlen : x'.length = x.length := by
    have h1 : (x'.zip y').length = (x.zip y).length := hperm.length_eq
    rw [List.length_zip, List.length_zip] at h1
    omega
  have hsp : sortPairs x' y' = sortPairs x y :=
    sortPairs_perm_eq hlen hlen' hperm hnodup
  rw [akima_interpolate_npoints, akima_interpolate_npoints]
  by_cases h2 : x.length < 2
  · rw [if_neg (show ¬ x'.length ≠ y'.length by omega),
      if_neg (show ¬ x.length ≠ y.length by omega),
      if_pos (show x'.length < 2 by omega),
      if_pos (show x.length < 2 by omega)]
  · rw [if_neg (show ¬ x'.length ≠ y'.length by omega),
      if_neg (show ¬ x.length ≠ y.length by omega),
      if_neg (show ¬ x'.length < 2 by omega),
      if_neg (show ¬ x.length < 2 by omega)]
    simp only [sortedX, sortedY]
    rw [hsp]

/-- C9 witness: the theorem applied to the spec's four-point dataset
`x = [0,1,2,3]`, `y = [0,1,4,9]` and the permuted input `x' = [3,0,2,1]`,
`y' = [9,0,4,1]`. -/
theorem order_independence_witness :
    OrderIndependenceClaim [0,1,2,3] [0,1,4,9] [3,0,2,1] [9,0,4,1] :=
  order_independence [0,1,2,3] [0,1,4,9] [3,0,2,1] [9,0,4,1]
    rfl rfl (by decide) (by decide)

/-! ### Hermite endpoint conditions of the segment cubic -/

theorem calculate_cubic_coefficients_isOk {x y s : List ℚ} {i : ℕ}
    (h0 : ¬ (x.getD (i+1) 0 - x.getD i 0 = 0)) :
    ∃ a b c d, calculate_cubic_coefficients x y s i = .ok (a, b, c, d) := by
  simp only [calculate_cubic_coefficients, if_neg h0]
  exact ⟨_, _, _, _, rfl⟩

theorem hermite_algebra (y0 y1 s0 s1 h : ℚ) (h0 : h ≠ 0) :
    cubic_eval y0 s0 ((3 * ((y1 - y0) / h) - 2 * s0 - s1) / h)
      ((s0 + s1 - 2 * ((y1 - y0) / h)) / (h * h)) 0 = y0 ∧
    cubic_eval y0 s0 ((3 * ((y1 - y0) / h) - 2 * s0 - s1) / h)
      ((s0 + s1 - 2 * ((y1 - y0) / h)) / (h * h)) h = y1 ∧
    cubic_deriv s0 ((3 * ((y1 - y0) / h) - 2 * s0 - s1) / h)
      ((s0 + s1 - 2 * ((y1 - y0) / h)) / (h * h)) 0 = s0 ∧
    cubic_deriv s0 ((3 * ((y1 - y0) / h) - 2 * s0 - s1) / h)
      ((s0 + s1 - 2 * ((y1 - y0) / h)) / (h * h)) h = s1 := by
  refine ⟨by simp [cubic_eval], ?_, by simp [cubic_deriv], ?_⟩
  · rw [cubic_eval]
    field_simp
    ring
  · rw [cubic_deriv]
    field_simp
    ring

theorem cubic_coefficients_hermite {x y s : List ℚ} {i : ℕ} {a b c d : ℚ}
    (hc : calculate_cubic_coefficients x y s i = .ok (a, b, c, d)) :
    cubic_eval a b c d 0 = y.getD i 0 ∧
    cubic_eval a b c d (x.getD (i+1) 0 - x.getD i 0) = y.getD (i+1) 0 ∧
    cubic_deriv b c d 0 = s.getD i 0 ∧
    cubic_deriv b c d (x.getD (i+1) 0 - x.getD i 0) = s.getD (i+1) 0 := by
  simp only [calculate_cubic_coefficients] at hc
  by_cases h0 : x.getD (i+1) 0 - x.getD i 0 = 0
  · rw [if_pos h0] at hc
    exact absurd hc (by simp)
  · rw [if_neg h0] at hc
    simp only [Except.ok.injEq, Prod.mk.injEq] at hc
    obtain ⟨ha, hb, hcc, hd⟩ := hc
    subst ha hb hcc hd
    exact hermite_algebra (y.getD i 0) (y.getD (i+1) 0) (s.getD i 0)
      (s.getD (i+1) 0) (x.getD (i+1) 0 - x.getD i 0) h0

theorem getD_strict_lt {x : List ℚ} (hx : x.Pairwise (· < ·)) {i j : ℕ}
    (hij : i < j) (hj : j < x.length) : x.getD i 0 < x.getD j 0 := by
  rw [List.getD_eq_getElem _ _ (by omega), List.getD_eq_getElem _ _ hj]
  exact (List.pairwise_iff_getElem.mp hx) i j (by omega) hj hij

theorem searchsorted_at_sample {x : List ℚ} (hx : x.Pairwise (· < ·)) {k : ℕ}
    (hk1 : 1 ≤ k) (hk : k < x.length) :
    searchsorted_left x (x.getD k 0) = k := by
  have hiff := getD_lt_iff_lt_countP x (x.getD k 0) hx
  have hle : searchsorted_left x (x.getD k 0) ≤ k := by
    by_contra hcon
    have := (hiff k hk).mpr (by omega)
    exact absurd this (lt_irrefl _)
  have hgt : k - 1 < searchsorted_left x (x.getD k 0) :=
    (hiff (k-1) (by omega)).mp (getD_strict_lt hx (by omega) hk)
  omega

/-- The Hermite-interpolation claim of C2: the coefficients returned for any
segment define a cubic matching the endpoint values and the endpoint tangents
exactly, in exact arithmetic. -/
def HermiteClaim : Prop :=
  ∀ (x y s : List ℚ) (i : ℕ) (a b c d : ℚ),
    calculate_cubic_coefficients x y s i = .ok (a, b, c, d) →
    cubic_eval a b c d 0 = y.getD i 0 ∧
    cubic_eval a b c d (x.getD (i+1) 0 - x.getD i 0) = y.getD (i+1) 0 ∧
    cubic_deriv b c d 0 = s.getD i 0 ∧
    cubic_deriv b c d (x.getD (i+1) 0 - x.getD i 0) = s.getD (i+1) 0

/-- The consequence claimed by C2: interpolation at every original sample's
abscissa reproduces that sample's ordinate. -/
def PassThroughClaim : Prop :=
  ∀ (x y : List ℚ), x.length = y.length → 2 ≤ x.length →
    x.Pairwise (· < ·) →
    ∀ k, k < x.length →
      akima_interpolate_npoints x y (x.getD k 0) = .ok (y.getD k 0)

/-- C2: the segment coefficients satisfy the four Hermite endpoint conditions
in exact arithmetic, and consequently interpolation evaluated at any original
sample's x returns that sample's y. -/
theorem hermite_and_passthrough : HermiteClaim ∧ PassThroughClaim := by
  constructor
  · intro x y s i a b c d hc
    exact cubic_coefficients_hermite hc
  · intro x y hlen h2 hsort k hk
    have hsort' : x.Pairwise (· ≤ ·) := hsort.imp le_of_lt
    have hx : sortedX x y = x := sortedX_of_sorted hsort' (by omega)
    have hy : sortedY x y = y := sortedY_of_sorted hsort' (by omega)
    rw [akima_interpolate_npoints, if_neg (by omega), if_neg (by omega),
      hx, hy, interp_body]
    by_cases hk0 : k = 0
    · subst hk0
      rw [if_pos (le_refl _), extrap_low, if_pos (by omega)]
      have hne : ¬ (x.getD 1 0 - x.getD 0 0 = 0) := by
        have h01 : x.getD 0 0 < x.getD 1 0 := getD_strict_lt hsort (by omega) (by omega)
        intro h
        rw [sub_eq_zero] at h
        exact absurd h (ne_of_gt h01)
      rw [if_neg hne]
      congr 1
      ring
    · have hq0 : ¬ (x.getD k 0 ≤ x.getD 0 0) :=
        not_le_of_lt (getD_strict_lt hsort (by omega) hk)
      rw [if_neg hq0]
      by_cases hklast : k = x.length - 1
      · rw [if_pos (by rw [hklast]), extrap_high, if_pos (by omega)]
        have hne : ¬ (x.getD (x.length - 1) 0 - x.getD (x.length - 2) 0 = 0) := by
          have h01 : x.getD (x.length - 2) 0 < x.getD (x.length - 1) 0 :=
            getD_strict_lt hsort (by omega) (by omega)
          intro h
          rw [sub_eq_zero] at h
          exact absurd h (ne_of_gt h01)
        rw [if_neg hne]
        have hyx : y.length = x.length := hlen.symm
        rw [hyx, hklast]
        congr 1
        ring
      · -- interior sample: the located segment is the one to the left
        have hkn : k ≤ x.length - 2 := by omega
        have hlast : x.getD k 0 < x.getD (x.length - 1) 0 :=
          getD_strict_lt hsort (by omega) (by omega)
        rw [if_neg (not_le_of_lt hlast)]
        obtain ⟨s, hs⟩ := calculate_spline_slopes_isOk h2
        rw [hs]
        show interp_inrange x y s (x.getD k 0) = .ok (y.getD k 0)
        have hss : searchsorted_left x (x.getD k 0) = k :=
          searchsorted_at_sample hsort (by omega) hk
        have hloc : locate_segment x (x.getD k 0) = k - 1 := by
          rw [locate_segment, hss]
          omega
        have hne : ¬ (x.getD (k-1+1) 0 - x.getD (k-1) 0 = 0) := by
          have h01 : x.getD (k-1) 0 < x.getD (k-1+1) 0 :=
            getD_strict_lt hsort (by omega) (by omega)
          intro h
          rw [sub_eq_zero] at h
          exact absurd h (ne_of_gt h01)
        obtain ⟨a, b, c, d, hcoef⟩ := calculate_cubic_coefficients_isOk hne
        rw [interp_inrange, hloc, hcoef]
        show Except.ok (cubic_eval a b c d (x.getD k 0 - x.getD (k-1) 0)) =
          .ok (y.getD k 0)
        have hherm := (cubic_coefficients_hermite hcoef).2.1
        have hkk : k - 1 + 1 = k := by omega
        rw [hkk] at hherm
        rw [hherm]

/-- C2 witness: the theorem's two halves instantiated concretely — the
coefficients of segment 1 of `x = [0,1,2,3]`, `y = [0,1,4,9]` with its
tangent vector `[1,2,4,5]`, and pass-through of that dataset at the sample
`x[2] = 2`. -/
theorem hermite_and_passthrough_witness :
    (cubic_eval 1 2 1 0 0 = ([0,1,4,9] : List ℚ).getD 1 0 ∧
     cubic_eval 1 2 1 0 (([0,1,2,3] : List ℚ).getD 2 0 - ([0,1,2,3] : List ℚ).getD 1 0) =
       ([0,1,4,9] : List ℚ).getD 2 0 ∧
     cubic_deriv 2 1 0 0 = ([1,2,4,5] : List ℚ).getD 1 0 ∧
     cubic_deriv 2 1 0 (([0,1,2,3] : List ℚ).getD 2 0 - ([0,1,2,3] : List ℚ).getD 1 0) =
       ([1,2,4,5] : List ℚ).getD 2 0) ∧
    akima_interpolate_npoints [0,1,2,3] [0,1,4,9] (([0,1,2,3] : List ℚ).getD 2 0) =
      .ok (([0,1,4,9] : List ℚ).getD 2 0) :=
  ⟨hermite_and_passthrough.1 [0,1,2,3] [0,1,4,9] [1,2,4,5] 1 1 2 1 0
    (by norm_num [calculate_cubic_coefficients]),
   hermite_and_passthrough.2 [0,1,2,3] [0,1,4,9] rfl (by norm_num) (by decide)
    2 (by norm_num)⟩

/-! ### Bounds-checked mirror of the pipeline (for the index-safety claim C10)

Each `*_checked` definition repeats the corresponding embedding verbatim but
performs every array access through `l[i]?`, returning `none` when an index is
out of bounds, and returns `none` when a single-element fallback branch (the
`else: return y_sorted[0]` / `return y_sorted[-1]` arms, claimed unreachable)
would be taken.  Index safety of the source is then the statement that the
checked pipeline returns `some` of the unchecked result. -/

def calculate_slopes_checked (x y : List ℚ) : Option (List ℚ) :=
  (List.range (x.length - 1)).mapM (fun i => do
    let x1 ← x[i+1]?
    let x0 ← x[i]?
    let y1 ← y[i+1]?
    let y0 ← y[i]?
    pure (if x1 - x0 = 0 then 0 else (y1 - y0) / (x1 - x0)))

def spline_slope_at_checked (m : List ℚ) (n i : ℕ) : Option ℚ :=
  if i = n - 1 then m[n-2]?
  else if i = n - 2 then do
    let a ← m[n-3]?
    let b ← m[n-2]?
    pure ((a + b) / 2)
  else if i = 0 then m[0]?
  else if i = 1 then do
    let a ← m[0]?
    let b ← m[1]?
    pure ((a + b) / 2)
  else do
    let m1 ← m[i+1]?
    let m0 ← m[i]?
    let mm1 ← m[i-1]?
    let mm2 ← m[i-2]?
    let w1 := |m1 - m0|
    let w2 := |mm1 - mm2|
    pure (if w1 + w2 = 0 then (mm1 + m0) / 2
      else (w1 * mm1 + w2 * m0) / (w1 + w2))

def calculate_spline_slopes_checked (x y : List ℚ) :
    Option (Except AkimaError (List ℚ)) :=
  if x.length < 2 then some (.error .insufficientPoints)
  else do
    let m ← calculate_slopes_checked x y
    if x.length = 2 then do
      let m0 ← m[0]?
      pure (.ok [m0, m0])
    else do
      let s ← (List.range x.length).mapM (spline_slope_at_checked m x.length)
      pure (.ok s)

def calculate_cubic_coefficients_checked (x y s : List ℚ) (i : ℕ) :
    Option (Except AkimaError (ℚ × ℚ × ℚ × ℚ)) := do
  let x1 ← x[i+1]?
  let x0 ← x[i]?
  let y1 ← y[i+1]?
  let y0 ← y[i]?
  let s0 ← s[i]?
  let s1 ← s[i+1]?
  if x1 - x0 = 0 then pure (.error .degenerateInput)
  else
    pure (.ok (y0, s0,
      (3 * ((y1 - y0) / (x1 - x0)) - 2 * s0 - s1) / (x1 - x0),
      (s0 + s1 - 2 * ((y1 - y0) / (x1 - x0))) / ((x1 - x0) * (x1 - x0))))

def extrap_low_checked (xs ys : List ℚ) (q : ℚ) :
    Option (Except AkimaError ℚ) :=
  if 1 < xs.length then do
    let x1 ← xs[1]?
    let x0 ← xs[0]?
    let y0 ← ys[0]?
    let y1 ← ys[1]?
    if x1 - x0 = 0 then pure (.ok y0)
    else pure (.ok (y0 + (y1 - y0) / (x1 - x0) * (q - x0)))
  else none

def extrap_high_checked (xs ys : List ℚ) (q : ℚ) :
    Option (Except AkimaError ℚ) :=
  if 1 < xs.length then do
    let x1 ← xs[xs.length - 1]?
    let x0 ← xs[xs.length - 2]?
    let y1 ← ys[ys.length - 1]?
    let y0 ← ys[ys.length - 2]?
    if x1 - x0 = 0 then pure (.ok y1)
    else pure (.ok (y1 + (y1 - y0) / (x1 - x0) * (q - x1)))
  else none

def interp_inrange_checked (xs ys s : List ℚ) (q : ℚ) :
    Option (Except AkimaError ℚ) := do
  let idx := locate_segment xs q
  match ← calculate_cubic_coefficients_checked xs ys s idx with
  | .error e => pure (.error e)
  | .ok (a, b, c, d) => do
    let x0 ← xs[idx]?
    pure (.ok (cubic_eval a b c d (q - x0)))

def interp_body_checked (xs ys : List ℚ) (q : ℚ) :
    Option (Except AkimaError ℚ) := do
  let xfirst ← xs[0]?
  let xlast ← xs[xs.length - 1]?
  if q ≤ xfirst then extrap_low_checked xs ys q
  else if xlast ≤ q then extrap_high_checked xs ys q
  else
    match ← calculate_spline_slopes_checked xs ys with
    | .error e => pure (.error e)
    | .ok s => interp_inrange_checked xs ys s q

def akima_interpolate_npoints_checked (x y : List ℚ) (q : ℚ) :
    Option (Except AkimaError ℚ) :=
  if x.length ≠ y.length then some (.error .lengthMismatch)
  else if x.length < 2 then some (.error .insufficientPoints)
  else interp_body_checked (sortedX x y) (sortedY x y) q

/-! ### The checked pipeline agrees with the unchecked one -/

theorem mapM_eq_some_map {α β : Type} {f : α → Option β} {g : α → β} :
    ∀ l : List α, (∀ a ∈ l, f a = some (g a)) → l.mapM f = some (l.map g) := by
  intro l
  induction l with
  | nil => intro _; rfl
  | cons a t ih =>
    intro h
    rw [List.mapM_cons, h a (List.mem_cons_self a t),
      ih (fun b hb => h b (List.mem_cons_of_mem a hb))]
    rfl

theorem calculate_slopes_checked_eq {x y : List ℚ} (hlen : x.length ≤ y.length) :
    calculate_slopes_checked x y = some (calculate_slopes x y) := by
  rw [calculate_slopes_checked, calculate_slopes]
  apply mapM_eq_some_map
  intro i hi
  rw [List.mem_range] at hi
  rw [List.getElem?_eq_getElem (show i+1 < x.length by omega),
    List.getElem?_eq_getElem (show i < x.length by omega),
    List.getElem?_eq_getElem (show i+1 < y.length by omega),
    List.getElem?_eq_getElem (show i < y.length by omega)]
  simp only [List.getD_eq_getElem x 0 (show i+1 < x.length by omega),
    List.getD_eq_getElem x 0 (show i < x.length by omega),
    List.getD_eq_getElem y 0 (show i+1 < y.length by omega),
    List.getD_eq_getElem y 0 (show i < y.length by omega)]
  rfl

theorem spline_slope_at_checked_eq {m : List ℚ} {n i : ℕ}
    (hm : m.length = n - 1) (h3 : 3 ≤ n) (hi : i < n) :
    spline_slope_at_checked m n i = some (spline_slope_at m n i) := by
  rw [spline_slope_at_checked, spline_slope_at]
  by_cases h1 : i = n - 1
  · rw [if_pos h1, if_pos h1,
      List.getElem?_eq_getElem (show n-2 < m.length by omega),
      List.getD_eq_getElem m 0 (show n-2 < m.length by omega)]
  · rw [if_neg h1, if_neg h1]
    by_cases h2 : i = n - 2
    · rw [if_pos h2, if_pos h2,
        List.getElem?_eq_getElem (show n-3 < m.length by omega),
        List.getElem?_eq_getElem (show n-2 < m.length by omega)]
      simp only [List.getD_eq_getElem m 0 (show n-3 < m.length by omega),
        List.getD_eq_getElem m 0 (show n-2 < m.length by omega)]
      rfl
    · rw [if_neg h2, if_neg h2]
      by_cases h0 : i = 0
      · rw [if_pos h0, if_pos h0,
          List.getElem?_eq_getElem (show 0 < m.length by omega),
          List.getD_eq_getElem m 0 (show 0 < m.length by omega)]
      · rw [if_neg h0, if_neg h0]
        by_cases hone : i = 1
        · rw [if_pos hone, if_pos hone,
            List.getElem?_eq_getElem (show 0 < m.length by omega),
            List.getElem?_eq_getElem (show 1 < m.length by omega)]
          simp only [List.getD_eq_getElem m 0 (show 0 < m.length by omega),
            List.getD_eq_getElem m 0 (show 1 < m.length by omega)]
          rfl
        · have hint : 2 ≤ i ∧ i ≤ n - 3 := by omega
          rw [if_neg hone, if_neg hone,
            List.getElem?_eq_getElem (show i+1 < m.length by omega),
            List.getElem?_eq_getElem (show i < m.length by omega),
            List.getElem?_eq_getElem (show i-1 < m.length by omega),
            List.getElem?_eq_getElem (show i-2 < m.length by omega)]
          simp only [List.getD_eq_getElem m 0 (show i+1 < m.length by omega),
            List.getD_eq_getElem m 0 (show i < m.length by omega),
            List.getD_eq_getElem m 0 (show i-1 < m.length by omega),
            List.getD_eq_getElem m 0 (show i-2 < m.length by omega)]
          rfl

theorem calculate_spline_slopes_checked_eq {x y : List ℚ}
    (h2 : 2 ≤ x.length) (hlen : x.length ≤ y.length) :
    calculate_spline_slopes_checked x y =
      some (calculate_spline_slopes x y) := by
  rw [calculate_spline_slopes_checked, calculate_spline_slopes,
    if_neg (show ¬ x.length < 2 by omega), if_neg (show ¬ x.length < 2 by omega),
    calculate_slopes_checked_eq hlen]
  simp only [Option.bind_eq_bind, Option.some_bind]
  by_cases hx2 : x.length = 2
  · rw [if_pos hx2, if_pos hx2]
    have hm : 0 < (calculate_slopes x y).length := by
      rw [length_calculate_slopes]
      omega
    rw [List.getElem?_eq_getElem hm]
    simp only [List.getD_eq_getElem (calculate_slopes x y) 0 hm]
    rfl
  · rw [if_neg hx2, if_neg hx2,
      mapM_eq_some_map _ (fun i hi => spline_slope_at_checked_eq
        (length_calculate_slopes x y) (by omega) (List.mem_range.mp hi))]
    rfl

theorem calculate_cubic_coefficients_checked_eq {x y s : List ℚ} {i : ℕ}
    (hx : i + 1 < x.length) (hy : i + 1 < y.length) (hs : i + 1 < s.length) :
    calculate_cubic_coefficients_checked x y s i =
      some (calculate_cubic_coefficients x y s i) := by
  rw [calculate_cubic_coefficients_checked, calculate_cubic_coefficients,
    List.getElem?_eq_getElem hx,
    List.getElem?_eq_getElem (show i < x.length by omega),
    List.getElem?_eq_getElem hy,
    List.getElem?_eq_getElem (show i < y.length by omega),
    List.getElem?_eq_getElem (show i < s.length by omega),
    List.getElem?_eq_getElem hs]
  simp only [List.getD_eq_getElem x 0 hx,
    List.getD_eq_getElem x 0 (show i < x.length by omega),
    List.getD_eq_getElem y 0 hy,
    List.getD_eq_getElem y 0 (show i < y.length by omega),
    List.getD_eq_getElem s 0 (show i < s.length by omega),
    List.getD_eq_getElem s 0 hs]
  rw [apply_ite (some : Except AkimaError (ℚ × ℚ × ℚ × ℚ) →
    Option (Except AkimaError (ℚ × ℚ × ℚ × ℚ)))]
  rfl

theorem extrap_low_checked_eq {xs ys : List ℚ}
    (hx : 2 ≤ xs.length) (hy : 2 ≤ ys.length) (q : ℚ) :
    extrap_low_checked xs ys q = some (extrap_low xs ys q) := by
  rw [extrap_low_checked, extrap_low, if_pos (by omega), if_pos (by omega),
    List.getElem?_eq_getElem (show 1 < xs.length by omega),
    List.getElem?_eq_getElem (show 0 < xs.length by omega),
    List.getElem?_eq_getElem (show 0 < ys.length by omega),
    List.getElem?_eq_getElem (show 1 < ys.length by omega)]
  simp only [List.getD_eq_getElem xs 0 (show 1 < xs.length by omega),
    List.getD_eq_getElem xs 0 (show 0 < xs.length by omega),
    List.getD_eq_getElem ys 0 (show 0 < ys.length by omega),
    List.getD_eq_getElem ys 0 (show 1 < ys.length by omega)]
  rw [apply_ite (some : Except AkimaError ℚ → Option (Except AkimaError ℚ))]
  rfl

theorem extrap_high_checked_eq {xs ys : List ℚ}
    (hx : 2 ≤ xs.length) (hy : 2 ≤ ys.length) (q : ℚ) :
    extrap_high_checked xs ys q = some (extrap_high xs ys q) := by
  rw [extrap_high_checked, extrap_high, if_pos (by omega), if_pos (by omega),
    List.getElem?_eq_getElem (show xs.length - 1 < xs.length by omega),
    List.getElem?_eq_getElem (show xs.length - 2 < xs.length by omega),
    List.getElem?_eq_getElem (show ys.length - 1 < ys.length by omega),
    List.getElem?_eq_getElem (show ys.length - 2 < ys.length by omega)]
  simp only [List.getD_eq_getElem xs 0 (show xs.length - 1 < xs.length by omega),
    List.getD_eq_getElem xs 0 (show xs.length - 2 < xs.length by omega),
    List.getD_eq_getElem ys 0 (show ys.length - 1 < ys.length by omega),
    List.getD_eq_getElem ys 0 (show ys.length - 2 < ys.length by omega)]
  rw [apply_ite (some : Except AkimaError ℚ → Option (Except AkimaError ℚ))]
  rfl

theorem locate_segment_le {x : List ℚ} (q : ℚ) (h2 : 2 ≤ x.length) :
    locate_segment x q ≤ x.length - 2 := by
  rw [locate_segment]
  omega

theorem length_of_spline_slopes {x y s : List ℚ}
    (hs : calculate_spline_slopes x y = .ok s) : s.length = x.length := by
  rw [calculate_spline_slopes] at hs
  by_cases h2 : x.length < 2
  · rw [if_pos h2] at hs
    exact absurd hs (by simp)
  · rw [if_neg h2] at hs
    by_cases hx2 : x.length = 2
    · rw [if_pos hx2] at hs
      simp only [Except.ok.injEq] at hs
      rw [← hs, hx2]
      rfl
    · rw [if_neg hx2] at hs
      simp only [Except.ok.injEq] at hs
      rw [← hs]
      simp

theorem interp_inrange_checked_eq {xs ys s : List ℚ} {q : ℚ}
    (hx : 2 ≤ xs.length) (hy : xs.length ≤ ys.length)
    (hslen : xs.length ≤ s.length) :
    interp_inrange_checked xs ys s q = some (interp_inrange xs ys s q) := by
  have hidx : locate_segment xs q ≤ xs.length - 2 := locate_segment_le q hx
  rw [interp_inrange_checked, interp_inrange,
    calculate_cubic_coefficients_checked_eq
      (show locate_segment xs q + 1 < xs.length by omega)
      (show locate_segment xs q + 1 < ys.length by omega)
      (show locate_segment xs q + 1 < s.length by omega)]
  rcases calculate_cubic_coefficients xs ys s (locate_segment xs q) with e | ⟨a, b, c, d⟩
  · rfl
  · simp only [Option.bind_eq_bind, Option.some_bind]
    rw [List.getElem?_eq_getElem (show locate_segment xs q < xs.length by omega)]
    simp only [List.getD_eq_getElem xs 0
      (show locate_segment xs q < xs.length by omega)]
    rfl

theorem interp_body_checked_eq {xs ys : List ℚ} {q : ℚ}
    (hx : 2 ≤ xs.length) (hy : xs.length = ys.length) :
    interp_body_checked xs ys q = some (interp_body xs ys q) := by
  rw [interp_body_checked, interp_body,
    List.getElem?_eq_getElem (show 0 < xs.length by omega),
    List.getElem?_eq_getElem (show xs.length - 1 < xs.length by omega)]
  simp only [Option.bind_eq_bind, Option.some_bind]
  simp only [List.getD_eq_getElem xs 0 (show 0 < xs.length by omega),
    List.getD_eq_getElem xs 0 (show xs.length - 1 < xs.length by omega)]
  by_cases h1 : q ≤ xs[0]
  · rw [if_pos h1, if_pos h1]
    exact extrap_low_checked_eq hx (by omega) q
  · rw [if_neg h1, if_neg h1]
    by_cases hlast : xs[xs.length - 1] ≤ q
    · rw [if_pos hlast, if_pos hlast]
      exact extrap_high_checked_eq hx (by omega) q
    · rw [if_neg hlast, if_neg hlast,
        calculate_spline_slopes_checked_eq hx (by omega), Option.some_bind]
      rcases hs : calculate_spline_slopes xs ys with e | s
      · rfl
      · exact interp_inrange_checked_eq hx (by omega)
          (by rw [length_of_spline_slopes hs])

/-- The index-safety claim of C10: on any input passing the length checks, the
bounds-checked pipeline returns `some` of the unchecked result — every array
access is in bounds and no single-element fallback branch is reached — and
the clamped segment index lies in `[0, n-2]`. -/
def IndexSafetyClaim (x y : List ℚ) (q : ℚ) : Prop :=
  akima_interpolate_npoints_checked x y q =
    some (akima_interpolate_npoints x y q) ∧
  locate_segment (sortedX x y) q ≤ x.length - 2

/-- C10: for every input passing the length checks and every query, all array
indexing in the pipeline stays in bounds (the segment index is clamped into
`[0, n-2]`, so the coefficient step only reads indices `idx` and `idx+1 < n`;
the interior tangent loop only reads `m[i-2] .. m[i+1]` inside the secant
vector) and the single-element fallback branches are unreachable. -/
theorem index_safety (x y : List ℚ) (q : ℚ) (hlen : x.length = y.length)
    (h2 : 2 ≤ x.length) : IndexSafetyClaim x y q := by
  have hxs : (sortedX x y).length = x.length := by
    rw [length_sortedX]
    omega
  have hys : (sortedY x y).length = x.length := by
    rw [length_sortedY]
    omega
  constructor
  · rw [akima_interpolate_npoints_checked, akima_interpolate_npoints,
      if_neg (show ¬ x.length ≠ y.length by omega),
      if_neg (show ¬ x.length ≠ y.length by omega),
      if_neg (show ¬ x.length < 2 by omega),
      if_neg (show ¬ x.length < 2 by omega)]
    exact interp_body_checked_eq (by omega) (by omega)
  · have := @locate_segment_le (sortedX x y) q (by omega)
    omega

/-- C10 witness: the theorem applied to the spec's six-point dataset at the
query `5/2`, which exercises the interior Akima rule. -/
theorem index_safety_witness :
    IndexSafetyClaim [0,1,2,3,4,5] [0,1,4,9,16,25] (5/2) :=
  index_safety [0,1,2,3,4,5] [0,1,4,9,16,25] (5/2) rfl (by norm_num)

end Akima
